import Mathlib

/-!
Verification of the content-sdk-go request-resolution core.

Go strings are modelled as lists of characters (`GoStr`), and each Go
function used by the claims is translated into an executable Lean
definition that mirrors the Go control flow statement by statement.
The relevant Go sources are:

* path codec: `GetSiteRewrite`, `GetSiteRewriteData`,
  `NormalizeSiteRewrite`, `GetPersonalizedRewrite`,
  `GetPersonalizedRewriteData`, `NormalizePersonalizedRewrite`
  (client package);
* redirect matching: `redirectsServiceImpl.GetRedirect` (site package);
* middleware: `Chain`, `LocaleMiddleware.Handle`,
  `RedirectsMiddleware.Handle`, `MultisiteMiddleware.Handle`,
  `EditingSecurityMiddleware` (middleware package);
* site resolution: `siteResolverImpl.GetByName`, `GetByHost`;
* transport: `ClientImpl.Request` retry loop (graphql package).
-/

/-- Model of a Go string: a list of characters.  All identifiers and
paths exercised by the claims are ASCII, where Go byte indexing and
Lean character indexing agree. -/
abbrev GoStr := List Char

/-- Conversion from a Lean string literal to the Go string model. -/
def gs (s : String) : GoStr := s.toList

namespace GoStrings

/-- Model of Go `strings.HasPrefix(s, pre)`. -/
def hasPre (s pre : GoStr) : Bool := pre.isPrefixOf s

/-- Model of Go `strings.CutPrefix(s, pre)`: returns the remainder when
`pre` is a prefix of `s`. -/
def cutPre : GoStr → GoStr → Option GoStr
  | s, [] => some s
  | [], _ :: _ => none
  | c :: s, p :: pre => if c = p then cutPre s pre else none

/-- Model of Go `strings.Contains(s, sub)`. -/
def containsSub : GoStr → GoStr → Bool
  | [], sub => sub.isEmpty
  | c :: s, sub => sub.isPrefixOf (c :: s) || containsSub s sub

/-- Model of Go `strings.Split(s, sep)` for a one-character separator:
splitting the empty string yields `[""]`, and `n` separators yield
`n + 1` fields. -/
def splitCh (sep : Char) : GoStr → List GoStr
  | [] => [[]]
  | c :: s =>
    if c = sep then [] :: splitCh sep s
    else
      match splitCh sep s with
      | [] => [[c]]
      | h :: t => (c :: h) :: t

/-- Model of Go `strings.Join(parts, sep)` for a one-character separator. -/
def joinCh (sep : Char) : List GoStr → GoStr
  | [] => []
  | [x] => x
  | x :: y :: t => x ++ sep :: joinCh sep (y :: t)

/-- Model of Go `strings.ReplaceAll(s, "//", "/")`: left-to-right,
non-overlapping replacement of double slashes by single slashes. -/
def collapseDouble : GoStr → GoStr
  | [] => []
  | [c] => [c]
  | c :: d :: s =>
    if c == '/' && d == '/' then '/' :: collapseDouble s
    else c :: collapseDouble (d :: s)

/-- Model of Go `strings.Trim(s, "/")`-style trimming of one cutset
character from both ends. -/
def trimCh (c : Char) (s : GoStr) : GoStr :=
  ((s.dropWhile (· = c)).reverse.dropWhile (· = c)).reverse

/-- Model of Go `strings.TrimSpace`. -/
def trimSpace (s : GoStr) : GoStr :=
  ((s.dropWhile Char.isWhitespace).reverse.dropWhile Char.isWhitespace).reverse

/-- Model of Go `strings.ToLower` on the ASCII identifiers used here. -/
def toLower (s : GoStr) : GoStr := s.map Char.toLower

/-- Model of Go `strings.Index(s, "-")` for a one-character needle:
index of the first occurrence, or `none`. -/
def indexCh (c : Char) : GoStr → Option Nat
  | [] => none
  | d :: s =>
    if d = c then some 0
    else match indexCh c s with
         | some i => some (i + 1)
         | none => none

end GoStrings

open GoStrings

/-! ### Path codec (client package)

Source: `GetSiteRewrite`, `GetSiteRewriteData`, `NormalizeSiteRewrite`,
`GetPersonalizedRewrite`, `GetPersonalizedRewriteData`,
`NormalizePersonalizedRewrite` with `SITE_PREFIX = "_site_"` and
`PERSONALIZE_PREFIX = "_variantId_"`. -/

/-- The Go constant `SITE_PREFIX`. -/
def siteMarker : GoStr := gs "_site_"

/-- The Go constant `PERSONALIZE_PREFIX`. -/
def personalizeMarker : GoStr := gs "_variantId_"

/-- Go struct `models.SiteRewriteData`. -/
structure SiteRewriteData where
  siteName : GoStr
  normalizedPath : GoStr
deriving DecidableEq, Repr

/-- Go struct `models.PersonalizeRewriteData`. -/
structure PersonalizeRewriteData where
  variantId : GoStr
  normalizedPath : GoStr
deriving DecidableEq, Repr

/-- The leading-slash normalization performed at the top of
`GetSiteRewrite` and `GetPersonalizedRewrite`
(`if !strings.HasPrefix(path, "/") { path = "/" + path }`). -/
def ensureSlash (p : GoStr) : GoStr :=
  if hasPre p (gs "/") then p else '/' :: p

/-- Go `GetSiteRewrite(path, siteName)`: prepend `/_site_<name>` to the
leading-slash-normalized path. -/
def GetSiteRewrite (path siteName : GoStr) : GoStr :=
  '/' :: (siteMarker ++ siteName ++ ensureSlash path)

/-- The scan inside `GetSiteRewriteData` / `GetPersonalizedRewriteData`:
find the first path segment that starts with the marker, return the
remainder of that segment and the list with that segment removed
(`append(parts[:i], parts[i+1:]...)`). -/
def extractMarker (marker : GoStr) : List GoStr → Option (GoStr × List GoStr)
  | [] => none
  | part :: rest =>
    match cutPre part marker with
    | some a => some (a, rest)
    | none =>
      match extractMarker marker rest with
      | some (a, rem) => some (a, part :: rem)
      | none => none

/-- Go `GetSiteRewriteData(path, defaultSite)`. -/
def GetSiteRewriteData (path defaultSite : GoStr) : SiteRewriteData :=
  if containsSub path siteMarker then
    match extractMarker siteMarker (splitCh '/' path) with
    | some (siteName, remaining) =>
      ⟨siteName, collapseDouble ('/' :: joinCh '/' remaining)⟩
    | none => ⟨defaultSite, path⟩
  else ⟨defaultSite, path⟩

/-- Go `NormalizeSiteRewrite(path)`. -/
def NormalizeSiteRewrite (path : GoStr) : GoStr :=
  if containsSub path siteMarker then
    collapseDouble
      ('/' :: joinCh '/'
        ((splitCh '/' path).filter (fun part => !hasPre part siteMarker)))
  else path

/-- Go `GetPersonalizedRewrite(path, variantId)`. -/
def GetPersonalizedRewrite (path variantId : GoStr) : GoStr :=
  '/' :: (personalizeMarker ++ variantId ++ ensureSlash path)

/-- Go `GetPersonalizedRewriteData(path)`. -/
def GetPersonalizedRewriteData (path : GoStr) : PersonalizeRewriteData :=
  if containsSub path personalizeMarker then
    match extractMarker personalizeMarker (splitCh '/' path) with
    | some (variantId, remaining) =>
      ⟨variantId, collapseDouble ('/' :: joinCh '/' remaining)⟩
    | none => ⟨[], path⟩
  else ⟨[], path⟩

/-- Go `NormalizePersonalizedRewrite(path)`. -/
def NormalizePersonalizedRewrite (path : GoStr) : GoStr :=
  if containsSub path personalizeMarker then
    collapseDouble
      ('/' :: joinCh '/'
        ((splitCh '/' path).filter (fun part => !hasPre part personalizeMarker)))
  else path

/-- A path with no two consecutive slashes.  `collapseDouble` (the Go
`ReplaceAll(s, "//", "/")`) is the identity exactly on such paths, so
the encode/decode round trip is lossless on them. -/
def noDoubleSlash : GoStr → Bool
  | [] => true
  | [_] => true
  | c :: d :: s => !(c == '/' && d == '/') && noDoubleSlash (d :: s)

/-! ### Redirect matching (site package, `redirectsServiceImpl.GetRedirect`) -/

/-- Go struct `models.RedirectInfo` (pattern, target, redirectType,
locale, isRegex).  `RedirectType` is a string type with constants
`"301"`, `"302"`, `"SERVER_TRANSFER"`. -/
structure RedirectInfo where
  pattern : GoStr
  target : GoStr
  redirectType : GoStr
  locale : GoStr
  isRegex : Bool
deriving DecidableEq, Repr

/-- Abstraction of Go `regexp.MatchString(pattern, s)`: `none` models a
pattern compile error, `some b` a successful match test.  The claims
about `GetRedirect` hold for every matcher, so the matcher is a
parameter. -/
def RxMatch := GoStr → GoStr → Option Bool

/-- A matcher whose every pattern matches every string. -/
def rxAlways : RxMatch := fun _ _ => some true

/-- A matcher whose every pattern matches no string. -/
def rxNever : RxMatch := fun _ _ => some false

/-- The path normalization at the top of `GetRedirect`:
`strings.TrimSpace`, then ensure a leading slash. -/
def normalizeRedirectPath (path : GoStr) : GoStr :=
  let t := trimSpace path
  if hasPre t (gs "/") then t else '/' :: t

/-- First pass of `GetRedirect`: first non-regex rule whose pattern
equals the normalized path. -/
def findExactPass (norm : GoStr) : List RedirectInfo → Option RedirectInfo
  | [] => none
  | r :: rest =>
    if !r.isRegex && r.pattern == norm then some r
    else findExactPass norm rest

/-- Second pass of `GetRedirect`: first regex rule whose pattern matches
the normalized path; rules whose pattern fails to compile are skipped
(`continue`). -/
def findRegexPass (rx : RxMatch) (norm : GoStr) :
    List RedirectInfo → Option RedirectInfo
  | [] => none
  | r :: rest =>
    if r.isRegex then
      match rx r.pattern norm with
      | some true => some r
      | some false => findRegexPass rx norm rest
      | none => findRegexPass rx norm rest
    else findRegexPass rx norm rest

/-- Go `redirectsServiceImpl.GetRedirect(path, redirects)` (its error
result is always nil in the source, so the model returns an option). -/
def GetRedirect (rx : RxMatch) (path : GoStr) (redirects : List RedirectInfo) :
    Option RedirectInfo :=
  let norm := normalizeRedirectPath path
  match findExactPass norm redirects with
  | some r => some r
  | none => findRegexPass rx norm redirects

/-! ### Redirects middleware (middleware package, `RedirectsMiddleware`) -/

/-- Observable outcome of one `RedirectsMiddleware.Handle` call. -/
inductive RedirectsOutcome where
  | passThrough
  | redirected (status : Nat) (target : GoStr)
  | serverTransfer (target : GoStr)
deriving DecidableEq, Repr

/-- The per-instance mutable state of `RedirectsMiddleware`:
`redirects` is nil until a fetch succeeds. -/
structure RedirectsMState where
  redirects : Option (List RedirectInfo)
deriving DecidableEq, Repr

/-- One request's environment: the current path and what
`FetchRedirects` would return if it were called on this request. -/
structure RedirectsRequestEnv where
  path : GoStr
  fetchResult : Except Unit (List RedirectInfo)

/-- The redirect-application switch at the bottom of
`RedirectsMiddleware.Handle`: 301, 302, server transfer, and a 302
default for unknown types. -/
def applyRedirect (rx : RxMatch) (path : GoStr) (rules : List RedirectInfo) :
    RedirectsOutcome :=
  match GetRedirect rx path rules with
  | none => .passThrough
  | some r =>
    if r.redirectType == gs "301" then .redirected 301 r.target
    else if r.redirectType == gs "302" then .redirected 302 r.target
    else if r.redirectType == gs "SERVER_TRANSFER" then .serverTransfer r.target
    else .redirected 302 r.target

/-- Go `RedirectsMiddleware.Handle`: lazy load on nil state (failure
leaves the state nil and passes through), then match and apply. -/
def redirectsHandle (rx : RxMatch) (st : RedirectsMState)
    (req : RedirectsRequestEnv) : RedirectsMState × RedirectsOutcome :=
  match st.redirects with
  | none =>
    match req.fetchResult with
    | .error _ => (⟨none⟩, .passThrough)
    | .ok rs => (⟨some rs⟩, applyRedirect rx req.path rs)
  | some rs => (st, applyRedirect rx req.path rs)

/-- A sequence of requests through the same middleware instance. -/
def redirectsRun (rx : RxMatch) (st : RedirectsMState) :
    List RedirectsRequestEnv → RedirectsMState × List RedirectsOutcome
  | [] => (st, [])
  | req :: rest =>
    let step := redirectsHandle rx st req
    let tail := redirectsRun rx step.1 rest
    (tail.1, step.2 :: tail.2)

/-- A concrete non-regex rule used in counterexamples and witnesses. -/
def cexRedirectRule : RedirectInfo :=
  ⟨gs "/old", gs "/new", gs "301", gs "", false⟩

/-! ### GraphQL transport retry loop (graphql package, `ClientImpl.Request`) -/

/-- Error taxonomy of a single `doRequest` call, as discriminated by the
retry loop: transport failures, non-2xx statuses and GraphQL error
envelopes are ordinary errors; `validation` models the
`*models.ValidationError` type assertion. -/
inductive GqlErrKind where
  | transport
  | httpStatus (code : Nat)
  | graphQL
  | validation
deriving DecidableEq, Repr

/-- Environment of one `Request` call: the outcome each attempt would
have (`none` = success), whether the backoff select observes
`ctx.Done()` before attempt `k`, and whether `ctx.Err()` is non-nil
when checked after attempt `k` fails. -/
structure RequestEnv where
  attemptResult : Nat → Option GqlErrKind
  ctxDoneDuringWait : Nat → Bool
  ctxDoneAfterAttempt : Nat → Bool

/-- Result of `Request`: success, the bare context error returned from
the backoff select, or the final wrapped error. -/
inductive ReqOutcome where
  | success (attempts : Nat)
  | ctxCanceled (attemptsBefore : Nat)
  | wrapped (attempts : Nat) (last : GqlErrKind)
deriving DecidableEq, Repr

/-- Observable events of the retry loop: a completed backoff wait of a
given duration before attempt `k`, a wait aborted by cancellation, and
an issued attempt. -/
inductive ReqEvent where
  | wait (k : Nat) (delay : Nat)
  | cancelWait (k : Nat)
  | att (k : Nat)
deriving DecidableEq, Repr

/-- The backoff events preceding attempt `attempt`: no sleep before the
first attempt, `2^(attempt-1) * delay` before every retry
(`time.Duration(math.Pow(2, float64(attempt-1))) * RetryDelay`). -/
def waitEvents (delay attempt : Nat) : List ReqEvent :=
  if 0 < attempt then [.wait attempt (2 ^ (attempt - 1) * delay)] else []

/-- The body of the retry loop of `ClientImpl.Request`, from iteration
`attempt` with `left` further iterations allowed (`left = retries -
attempt` at each call).  Before every iteration except the first, the
loop sleeps unless the select observes `ctx.Done()`, in which case it
returns `ctx.Err()` at once.  After a failed attempt it breaks on a
non-nil `ctx.Err()` or a validation error, otherwise retries while
iterations remain; on the last iteration those two breaks and the
normal loop exit all return the same wrapped last error. -/
def requestGo (env : RequestEnv) (delay : Nat) :
    (attempt left : Nat) → ReqOutcome × List ReqEvent
  | attempt, 0 =>
    if 0 < attempt ∧ env.ctxDoneDuringWait attempt = true then
      (.ctxCanceled attempt, [.cancelWait attempt])
    else
      match env.attemptResult attempt with
      | none =>
        (.success (attempt + 1), waitEvents delay attempt ++ [.att attempt])
      | some e =>
        (.wrapped (attempt + 1) e, waitEvents delay attempt ++ [.att attempt])
  | attempt, left + 1 =>
    if 0 < attempt ∧ env.ctxDoneDuringWait attempt = true then
      (.ctxCanceled attempt, [.cancelWait attempt])
    else
      match env.attemptResult attempt with
      | none =>
        (.success (attempt + 1), waitEvents delay attempt ++ [.att attempt])
      | some e =>
        if env.ctxDoneAfterAttempt attempt = true then
          (.wrapped (attempt + 1) e, waitEvents delay attempt ++ [.att attempt])
        else if e = .validation then
          (.wrapped (attempt + 1) e, waitEvents delay attempt ++ [.att attempt])
        else
          let rest := requestGo env delay (attempt + 1) left
          (rest.1, waitEvents delay attempt ++ [.att attempt] ++ rest.2)

/-- Go `ClientImpl.Request` retry loop: `for attempt := 0; attempt <=
retries; attempt++`. -/
def requestLoop (env : RequestEnv) (retries delay : Nat) :
    ReqOutcome × List ReqEvent :=
  requestGo env delay 0 retries

/-- Attempt count of a trace. -/
def attCount (tr : List ReqEvent) : Nat :=
  tr.countP (fun ev => match ev with | .att _ => true | _ => false)

/-- Attempt index of a trace event. -/
def evIdx : ReqEvent → Nat
  | .wait k _ => k
  | .cancelWait k => k
  | .att k => k

/-- An environment in which every attempt fails with HTTP 503 and the
context never cancels. -/
def envAllFail : RequestEnv :=
  ⟨fun _ => some (.httpStatus 503), fun _ => false, fun _ => false⟩

/-- An environment whose first attempt fails with a validation error
(and whose later attempts, never reached, would fail with HTTP 503);
the context never cancels. -/
def envValFail : RequestEnv :=
  ⟨fun k => if k = 0 then some .validation else some (.httpStatus 503),
    fun _ => false, fun _ => false⟩

/-! ### Middleware composer (middleware package, `Chain`) -/

/-- Go `HandlerFunc`: a handler over the framework-agnostic context. -/
def HandlerFunc (κ ρ : Type) := κ → ρ

/-- Go `Middleware`: receives the context and the next handler. -/
def Middleware (κ ρ : Type) := κ → HandlerFunc κ ρ → ρ

/-- Go `Chain(middlewares...)`: builds the handler chain from right to
left, so the first middleware of the list is outermost. -/
def Chain {κ ρ : Type} (middlewares : List (Middleware κ ρ)) :
    Middleware κ ρ :=
  fun ctx next =>
    (middlewares.foldr (fun mw handler => fun c => mw c handler) next) ctx

/-- An instrumented middleware: appends its id to the log and calls the
next handler only when `callsNext` holds. -/
def traceMw (id : Nat) (callsNext : Bool) :
    Middleware (List Nat) (List Nat) :=
  fun log next => if callsNext then next (log ++ [id]) else log ++ [id]

/-- The ids a chain of instrumented middleware executes: every id up to
and including the first one that does not call next. -/
def firedIds : List (Nat × Bool) → List Nat
  | [] => []
  | (i, b) :: rest => i :: (if b then firedIds rest else [])

/-! ### Locale middleware (middleware package, `LocaleMiddleware`) -/

/-- The `LocaleConfig` fields that determine resolution (cookie
attribute fields do not affect which locale is stored). -/
structure LocaleConfig where
  defaultLanguage : GoStr
  supportedLanguages : List GoStr
  useAcceptLanguage : Bool

/-- One request as observed by `LocaleMiddleware.Handle`: the path, the
`sc_lang` and `locale` query parameters (empty when absent), the value
of the locale cookie when present, and the `Accept-Language` header
(empty when absent). -/
structure LocaleRequest where
  path : GoStr
  scLangParam : GoStr
  localeParam : GoStr
  cookie : Option GoStr
  acceptLanguage : GoStr

/-- What the middleware did: the locale stored in the context bag under
`LocaleKey`, and the cookie value written (if any). -/
structure LocaleResult where
  stored : GoStr
  cookieWritten : Option GoStr
deriving DecidableEq, Repr

/-- Go `LocaleMiddleware.isSupported`: an empty supported list accepts
everything, otherwise a case-insensitive membership test. -/
def isSupported (cfg : LocaleConfig) (locale : GoStr) : Bool :=
  if cfg.supportedLanguages.isEmpty then true
  else cfg.supportedLanguages.any
    (fun supported => toLower supported == toLower locale)

/-- Go `LocaleMiddleware.extractLocaleFromPath`: the first segment of
the slash-trimmed path if it is 2 characters, or 5 characters with a
hyphen at index 2. -/
def extractLocaleFromPath (path : GoStr) : GoStr :=
  match splitCh '/' (trimCh '/' path) with
  | [] => []
  | firstPart :: _ =>
    if firstPart.length = 2 ∨
        (firstPart.length = 5 ∧ firstPart[2]? = some '-') then firstPart
    else []

/-- One entry of the `Accept-Language` list: drop the `;q=` weight,
trim spaces. -/
def acceptLangEntry (lang : GoStr) : GoStr :=
  match splitCh ';' lang with
  | [] => []
  | p :: _ => trimSpace p

/-- Go `LocaleMiddleware.parseAcceptLanguage` over the comma-split
entries: first entry supported exactly or by its primary subtag wins. -/
def parseAcceptLangList (cfg : LocaleConfig) : List GoStr → GoStr
  | [] => []
  | lang :: rest =>
    let language := acceptLangEntry lang
    if isSupported cfg language then language
    else
      match indexCh '-' language with
      | some idx =>
        if 0 < idx ∧ isSupported cfg (language.take idx) = true then
          language.take idx
        else parseAcceptLangList cfg rest
      | none => parseAcceptLangList cfg rest

/-- Go `LocaleMiddleware.parseAcceptLanguage`. -/
def parseAcceptLanguage (cfg : LocaleConfig) (header : GoStr) : GoStr :=
  parseAcceptLangList cfg (splitCh ',' header)

/-- Tiers 4 and 5 of `LocaleMiddleware.Handle` (reached when the path,
query and cookie tiers all fail). -/
def localeFallthrough (cfg : LocaleConfig) (req : LocaleRequest) :
    LocaleResult :=
  if cfg.useAcceptLanguage = true ∧ req.acceptLanguage ≠ [] then
    let fromHeader := parseAcceptLanguage cfg req.acceptLanguage
    if fromHeader ≠ [] ∧ isSupported cfg fromHeader = true then
      ⟨fromHeader, some fromHeader⟩
    else ⟨cfg.defaultLanguage, some cfg.defaultLanguage⟩
  else ⟨cfg.defaultLanguage, some cfg.defaultLanguage⟩

/-- The query-parameter tier value: `sc_lang`, falling back to
`locale`. -/
def localeQueryParam (req : LocaleRequest) : GoStr :=
  if req.scLangParam ≠ [] then req.scLangParam else req.localeParam

/-- Go `LocaleMiddleware.Handle`: the five-tier resolution.  Tiers 1, 2,
4 and 5 write the cookie; tier 3 (the cookie itself) does not. -/
def localeHandle (cfg : LocaleConfig) (req : LocaleRequest) : LocaleResult :=
  let fromPath := extractLocaleFromPath req.path
  if fromPath ≠ [] ∧ isSupported cfg fromPath = true then
    ⟨fromPath, some fromPath⟩
  else
    let localeParam := localeQueryParam req
    if localeParam ≠ [] ∧ isSupported cfg localeParam = true then
      ⟨localeParam, some localeParam⟩
    else
      match req.cookie with
      | some v =>
        if isSupported cfg v then ⟨v, none⟩
        else localeFallthrough cfg req
      | none => localeFallthrough cfg req

/-! ### Editing security gate (middleware package,
`EditingSecurityMiddleware`) -/

/-- Go `EditingSecurityConfig`. -/
structure EditingSecurityConfig where
  secret : GoStr
  allowedOrigins : List GoStr
  skipSecretValidation : Bool

/-- One request as seen by the gate: method, `Origin` header (empty when
absent) and `secret` query parameter (empty when absent). -/
structure EditRequest where
  method : GoStr
  origin : GoStr
  secretParam : GoStr

/-- Response state produced by the gate: status written by the
middleware itself (`0` when it delegates to the next handler), headers
set, response body text, and whether `next` was called. -/
structure EditResponse where
  status : Nat
  headers : List (GoStr × GoStr)
  body : GoStr
  nextCalled : Bool
deriving DecidableEq, Repr

/-- Header write with `Set` semantics (replace an existing key,
otherwise append). -/
def setHeader (hs : List (GoStr × GoStr)) (k v : GoStr) :
    List (GoStr × GoStr) :=
  if hs.any (fun p => p.1 == k) then
    hs.map (fun p => if p.1 == k then (k, v) else p)
  else hs ++ [(k, v)]

/-- Header lookup. -/
def getHeader (hs : List (GoStr × GoStr)) (k : GoStr) : Option GoStr :=
  match hs.find? (fun p => p.1 == k) with
  | some p => some p.2
  | none => none

/-- Go `isOriginAllowed`: empty allow-list allows all; otherwise exact
membership or a `"*"` entry. -/
def isOriginAllowed (origin : GoStr) (allowedOrigins : List GoStr) : Bool :=
  if allowedOrigins.isEmpty then true
  else if allowedOrigins.contains origin then true
  else allowedOrigins.contains (gs "*")

/-- Go `handleCORSPreflight`: 204 with CORS headers for an allowed
non-empty origin, otherwise a bare 403. -/
def handleCORSPreflight (origin : GoStr) (allowedOrigins : List GoStr) :
    EditResponse :=
  if origin ≠ [] ∧ isOriginAllowed origin allowedOrigins = true then
    { status := 204
      headers :=
        [(gs "Access-Control-Allow-Origin", origin),
         (gs "Access-Control-Allow-Credentials", gs "true"),
         (gs "Access-Control-Allow-Methods", gs "GET, POST, PUT, DELETE, OPTIONS"),
         (gs "Access-Control-Allow-Headers", gs "Content-Type, Authorization, X-Requested-With"),
         (gs "Access-Control-Max-Age", gs "3600")]
      body := gs ""
      nextCalled := false }
  else { status := 403, headers := [], body := gs "", nextCalled := false }

/-- Go `setCORSHeaders` for non-preflight requests. -/
def setCORSHeaders (hs : List (GoStr × GoStr)) (origin : GoStr)
    (allowedOrigins : List GoStr) : List (GoStr × GoStr) :=
  if origin ≠ [] ∧ isOriginAllowed origin allowedOrigins = true then
    setHeader
      (setHeader
        (setHeader hs (gs "Access-Control-Allow-Origin") origin)
        (gs "Access-Control-Allow-Credentials") (gs "true"))
      (gs "Access-Control-Expose-Headers") (gs "Content-Length, Content-Type")
  else hs

/-- Go `setIframeHeaders`: the `Content-Security-Policy`
`frame-ancestors` directive. -/
def setIframeHeaders (hs : List (GoStr × GoStr))
    (allowedOrigins : List GoStr) : List (GoStr × GoStr) :=
  if allowedOrigins.isEmpty then
    setHeader hs (gs "Content-Security-Policy") (gs "frame-ancestors *")
  else if allowedOrigins.contains (gs "*") then
    setHeader hs (gs "Content-Security-Policy") (gs "frame-ancestors *")
  else
    setHeader hs (gs "Content-Security-Policy")
      (gs "frame-ancestors " ++ joinCh ' ' allowedOrigins)

/-- The CSP value as the specification describes it, a function of the
allow-list alone. -/
def cspDirective (allowedOrigins : List GoStr) : GoStr :=
  if allowedOrigins.isEmpty || allowedOrigins.contains (gs "*") then
    gs "frame-ancestors *"
  else gs "frame-ancestors " ++ joinCh ' ' allowedOrigins

/-- Go `EditingSecurityMiddleware` handler body. -/
def editingSecurityHandle (cfg : EditingSecurityConfig) (req : EditRequest) :
    EditResponse :=
  if req.method == gs "OPTIONS" then
    handleCORSPreflight req.origin cfg.allowedOrigins
  else if cfg.skipSecretValidation = false ∧ req.secretParam = [] then
    { status := 401, headers := [],
      body := gs "Unauthorized: editing secret is required",
      nextCalled := false }
  else if cfg.skipSecretValidation = false ∧ req.secretParam ≠ cfg.secret then
    { status := 401, headers := [],
      body := gs "Unauthorized: invalid editing secret",
      nextCalled := false }
  else
    { status := 0
      headers :=
        setIframeHeaders
          (setCORSHeaders [] req.origin cfg.allowedOrigins)
          cfg.allowedOrigins
      body := gs ""
      nextCalled := true }

/-! ### Multisite middleware and site resolver -/

/-- Go struct `models.SiteInfo`. -/
structure SiteInfo where
  name : GoStr
  hostName : GoStr
  language : GoStr
  rootPath : GoStr
  database : GoStr
deriving DecidableEq, Repr

/-- Go `matchesWildcard(pattern, hostname)`. -/
def matchesWildcard (pat hostname : GoStr) : Bool :=
  let p := toLower pat
  let h := toLower hostname
  if !containsSub p (gs "*") then false
  else if hasPre p (gs "*.") then
    let sfx := p.drop 2
    ((gs "." ++ sfx).isSuffixOf h) || h == sfx
  else false

/-- The hostname normalization shared by `GetByHost` and the multisite
middleware: strip a `:port` when the colon is not at index 0. -/
def stripPort (hostname : GoStr) : GoStr :=
  match indexCh ':' hostname with
  | some i => if 0 < i then hostname.take i else hostname
  | none => hostname

/-- Go `siteResolverImpl.GetByHost`: exact case-insensitive hostname
match, then wildcard match, then the default site. -/
def getByHost (sites : List SiteInfo) (defaultSite : SiteInfo)
    (hostname : GoStr) : SiteInfo :=
  let host := toLower (stripPort hostname)
  match sites.find? (fun s => toLower s.hostName == host) with
  | some s => s
  | none =>
    match sites.find? (fun s => matchesWildcard s.hostName host) with
    | some s => s
    | none => defaultSite

/-- Go `siteResolverImpl.GetByName`: case-insensitive lookup in the
configured list, then against the default site name; `none` models the
"site not found" error. -/
def getByName (sites : List SiteInfo) (defaultSite : SiteInfo)
    (name : GoStr) : Option SiteInfo :=
  let searchName := toLower name
  match sites.find? (fun s => toLower s.name == searchName) with
  | some s => some s
  | none =>
    if toLower defaultSite.name == searchName then some defaultSite else none

/-- The `MultisiteConfig` fields that determine resolution. -/
structure MultisiteConfig where
  sites : List SiteInfo
  defaultSite : SiteInfo
  enabled : Bool
  useCookieResolution : Bool

/-- One request as seen by `MultisiteMiddleware.Handle`. -/
structure MultisiteRequest where
  xForwardedHost : GoStr
  host : GoStr
  path : GoStr
  siteParam : GoStr
  siteCookie : Option GoStr

/-- What the middleware stored: the context-bag site, the site cookie
value, and the rewritten/original paths (`none` when disabled). -/
structure MultisiteResult where
  siteKey : Option GoStr
  cookieValue : Option GoStr
  rewritePath : Option GoStr
  originalPath : Option GoStr
deriving DecidableEq, Repr

/-- Go `MultisiteMiddleware.getHostname`: `X-Forwarded-Host` first,
then the request host, both normalized. -/
def getHostname (req : MultisiteRequest) : GoStr :=
  if req.xForwardedHost ≠ [] then stripPort req.xForwardedHost
  else stripPort req.host

/-- The four sequential site-name assignments of
`MultisiteMiddleware.Handle`: query parameter, cookie (when enabled),
hostname, default.  The `GetByName` lookups of the first two tiers are
performed and their not-found errors discarded, exactly as in the
source. -/
def resolveSiteName (cfg : MultisiteConfig) (req : MultisiteRequest) : GoStr :=
  let n1 : GoStr := if req.siteParam ≠ [] then req.siteParam else []
  let _i1 := if n1 ≠ [] then getByName cfg.sites cfg.defaultSite n1 else none
  let n2 : GoStr :=
    if n1 = [] ∧ cfg.useCookieResolution = true then
      match req.siteCookie with
      | some v => v
      | none => n1
    else n1
  let _i2 := getByName cfg.sites cfg.defaultSite n2
  let n3 : GoStr :=
    if n2 = [] then (getByHost cfg.sites cfg.defaultSite (getHostname req)).name
    else n2
  if n3 = [] then cfg.defaultSite.name else n3

/-- Go `MultisiteMiddleware.Handle`: pass through untouched when
disabled; otherwise resolve the site name, store it under `SiteKey`,
write it to the site cookie, and rewrite the path with the site
marker. -/
def multisiteHandle (cfg : MultisiteConfig) (req : MultisiteRequest) :
    MultisiteResult :=
  if cfg.enabled = false then ⟨none, none, none, none⟩
  else
    let siteName := resolveSiteName cfg req
    ⟨some siteName, some siteName,
      some (GetSiteRewrite req.path siteName), some req.path⟩

namespace GoStrings

theorem splitCh_ne_nil (sep : Char) (s : GoStr) : splitCh sep s ≠ [] := by
  cases s with
  | nil => simp [splitCh]
  | cons c t =>
    by_cases h : c = sep
    · simp [splitCh, h]
    · simp only [splitCh, if_neg h]
      cases splitCh sep t <;> simp

theorem joinCh_splitCh (sep : Char) (s : GoStr) :
    joinCh sep (splitCh sep s) = s := by
  induction s with
  | nil => rfl
  | cons c t ih =>
    by_cases h : c = sep
    · subst h
      simp only [splitCh, if_pos rfl]
      rcases he : splitCh c t with _ | ⟨h1, t1⟩
      · exact absurd he (splitCh_ne_nil c t)
      · rw [he] at ih
        simpa [joinCh] using ih
    · simp only [splitCh, if_neg h]
      rcases he : splitCh sep t with _ | ⟨h1, t1⟩
      · exact absurd he (splitCh_ne_nil sep t)
      · rw [he] at ih
        cases t1 with
        | nil => simpa [joinCh] using ih
        | cons h2 t2 => simpa [joinCh] using ih

theorem splitCh_append_noSep (sep : Char) (a l : GoStr)
    (ha : ∀ c ∈ a, c ≠ sep) :
    splitCh sep (a ++ l) =
      (a ++ (splitCh sep l).headI) :: (splitCh sep l).tail := by
  induction a with
  | nil =>
    rcases he : splitCh sep l with _ | ⟨h1, t1⟩
    · exact absurd he (splitCh_ne_nil sep l)
    · simp [he]
  | cons c a ih =>
    have hc : c ≠ sep := ha c (by simp)
    have ih2 : splitCh sep (a.append l) =
        (a ++ (splitCh sep l).headI) :: (splitCh sep l).tail :=
      ih (fun d hd => ha d (by simp [hd]))
    simp only [List.cons_append, splitCh, if_neg hc]
    rw [ih2]

theorem cutPre_self_append (marker r : GoStr) :
    cutPre (marker ++ r) marker = some r := by
  induction marker with
  | nil => cases r <;> rfl
  | cons c t ih => simpa [cutPre] using ih

theorem cutPre_nil_of_ne (marker : GoStr) (h : marker ≠ []) :
    cutPre [] marker = none := by
  cases marker with
  | nil => exact absurd rfl h
  | cons c t => rfl

theorem collapseDouble_of_noDouble (s : GoStr) (h : noDoubleSlash s = true) :
    collapseDouble s = s := by
  induction s using collapseDouble.induct with
  | case1 => rfl
  | case2 c => rfl
  | case3 c d s hcd ih =>
    simp only [noDoubleSlash, Bool.and_eq_true, Bool.not_eq_eq_eq_not,
      Bool.not_true] at h
    rw [hcd] at h
    exact absurd h.1 (by simp)
  | case4 c d s hcd ih =>
    simp only [noDoubleSlash, Bool.and_eq_true, Bool.not_eq_eq_eq_not,
      Bool.not_true] at h
    rw [collapseDouble, if_neg (by simp [hcd]), ih h.2]

theorem containsSub_append_self (pre s sub : GoStr)
    (h : sub.isPrefixOf s = true) : containsSub (pre ++ s) sub = true := by
  induction pre with
  | nil =>
    cases s with
    | nil =>
      cases sub with
      | nil => rfl
      | cons c t => simp [List.isPrefixOf] at h
    | cons c t => simp [containsSub, h]
  | cons c t ih => simp [containsSub, ih]

end GoStrings

theorem noDoubleSlash_cons_slash (q : GoStr)
    (h : noDoubleSlash ('/' :: q) = true) :
    GoStrings.collapseDouble q = q := by
  cases q with
  | nil => rfl
  | cons c r =>
    simp only [noDoubleSlash, Bool.and_eq_true] at h
    exact GoStrings.collapseDouble_of_noDouble _ h.2

theorem ensureSlash_shape (p : GoStr) : ∃ q, ensureSlash p = '/' :: q := by
  unfold ensureSlash
  by_cases h : hasPre p (gs "/") = true
  · rw [if_pos h]
    cases p with
    | nil => simp [hasPre, gs, List.isPrefixOf] at h
    | cons c t =>
      have hc : c = '/' := by
        have := h
        simp only [hasPre, gs, List.isPrefixOf, Bool.and_eq_true, beq_iff_eq] at this
        exact (by simpa using this.1 : ('/' : Char) = c).symm
      exact ⟨t, by rw [hc]⟩
  · rw [if_neg h]
    exact ⟨p, rfl⟩

theorem siteMarker_no_slash : ∀ c ∈ siteMarker, c ≠ '/' := by decide

theorem siteMarker_ne_nil : siteMarker ≠ [] := by decide

theorem splitCh_cons_sep (sep : Char) (s : GoStr) :
    splitCh sep (sep :: s) = [] :: splitCh sep s := by
  simp [splitCh]

/-- Core round-trip computation for the site codec: decoding an encoded
path finds the marker segment at index 1 and reassembles the rest. -/
theorem gsrd_of_encoded (q sname d : GoStr) (hs : '/' ∉ sname)
    (hq : noDoubleSlash ('/' :: q) = true) :
    GetSiteRewriteData ('/' :: (siteMarker ++ sname ++ '/' :: q)) d =
      ⟨sname, '/' :: q⟩ := by
  have hnoSep : ∀ c ∈ siteMarker ++ sname, c ≠ '/' := by
    intro c hc
    rcases List.mem_append.mp hc with h | h
    · exact siteMarker_no_slash c h
    · exact fun he => hs (he ▸ h)
  have hcont : containsSub ('/' :: (siteMarker ++ sname ++ '/' :: q)) siteMarker
      = true := by
    refine containsSub_append_self ['/'] _ _ ?_
    rw [List.isPrefixOf_iff_prefix]
    exact List.prefix_append siteMarker (sname ++ '/' :: q)
  have hsplit : splitCh '/' ('/' :: (siteMarker ++ sname ++ '/' :: q)) =
      [] :: (siteMarker ++ sname) :: splitCh '/' q := by
    rw [splitCh_cons_sep]
    rw [show siteMarker ++ sname ++ '/' :: q =
      (siteMarker ++ sname) ++ ('/' :: q) by simp]
    rw [splitCh_append_noSep '/' (siteMarker ++ sname) ('/' :: q) hnoSep]
    rw [splitCh_cons_sep]
    simp
  have h1 : extractMarker siteMarker ((siteMarker ++ sname) :: splitCh '/' q) =
      some (sname, splitCh '/' q) := by
    simp only [extractMarker, cutPre_self_append]
  have hext : extractMarker siteMarker
      ([] :: (siteMarker ++ sname) :: splitCh '/' q) =
      some (sname, [] :: splitCh '/' q) := by
    simp only [extractMarker, cutPre_nil_of_ne siteMarker siteMarker_ne_nil,
      cutPre_self_append]
  have hjoin : joinCh '/' ([] :: splitCh '/' q) = '/' :: q := by
    rcases he : splitCh '/' q with _ | ⟨h1, t1⟩
    · exact absurd he (splitCh_ne_nil '/' q)
    · have hj := joinCh_splitCh '/' q
      rw [he] at hj
      simp [joinCh, hj]
  have hcol : collapseDouble ('/' :: '/' :: q) = '/' :: q := by
    rw [show collapseDouble ('/' :: '/' :: q) = '/' :: collapseDouble q by
      simp [collapseDouble]]
    rw [noDoubleSlash_cons_slash q hq]
  unfold GetSiteRewriteData
  rw [if_pos hcont, hsplit, hext]
  simp only []
  rw [hjoin, hcol]

/-- C1 (amended): for every path `p` whose leading-slash normalization
contains no double slash and every site name `sname` containing no `/`,
decoding the encoded path recovers the site name and the normalized
original path for any default site:
`GetSiteRewriteData (GetSiteRewrite p sname) d = ⟨sname, ensureSlash p⟩`.
The restriction to paths without `//` is forced by the
counterexample `siteRewrite_roundtrip_cex`: `ReplaceAll(path, "//", "/")`
inside `GetSiteRewriteData` also collapses double slashes that were part
of the original path. -/
theorem siteRewrite_roundtrip (p sname d : GoStr) (hs : '/' ∉ sname)
    (hnd : noDoubleSlash (ensureSlash p) = true) :
    GetSiteRewriteData (GetSiteRewrite p sname) d = ⟨sname, ensureSlash p⟩ := by
  obtain ⟨q, hq⟩ := ensureSlash_shape p
  rw [GetSiteRewrite, hq]
  rw [hq] at hnd
  exact gsrd_of_encoded q sname d hs hnd

/-- C1 witness: the round trip at the concrete input `/about/team`,
`site1` (mirroring `TestGetSiteRewrite`). -/
theorem siteRewrite_roundtrip_witness :
    GetSiteRewriteData (GetSiteRewrite (gs "/about/team") (gs "site1"))
      (gs "default") = ⟨gs "site1", ensureSlash (gs "/about/team")⟩ :=
  siteRewrite_roundtrip (gs "/about/team") (gs "site1") (gs "default")
    (by decide) (by decide)

/-- C1 counterexample: for `p = "/a//b"` (a path with an internal double
slash, already leading-slash-normalized) and `s = "x"`, the decode of the
encode yields `"/a/b"`, not the normalized original path `"/a//b"` — the
claim as stated fails. -/
theorem siteRewrite_roundtrip_cex :
    GetSiteRewriteData (GetSiteRewrite (gs "/a//b") (gs "x")) (gs "web") =
      ⟨gs "x", gs "/a/b"⟩ ∧
    ensureSlash (gs "/a//b") = gs "/a//b" ∧
    (⟨gs "x", gs "/a/b"⟩ : SiteRewriteData) ≠ ⟨gs "x", gs "/a//b"⟩ := by
  refine ⟨by decide, by decide, by decide⟩

/-- C8 (amended): the Path Codec decode functions leave a `/`-only input
unchanged (hence return `/`), but they also leave an empty input
unchanged (hence return `""`, not `/`): normalization of the empty path
to `/` happens in `parsePath`, not in the decode functions. -/
theorem decode_degenerate (d : GoStr) :
    GetSiteRewriteData (gs "/") d = ⟨d, gs "/"⟩ ∧
    GetSiteRewriteData (gs "") d = ⟨d, gs ""⟩ ∧
    GetPersonalizedRewriteData (gs "/") = ⟨gs "", gs "/"⟩ ∧
    GetPersonalizedRewriteData (gs "") = ⟨gs "", gs ""⟩ ∧
    NormalizeSiteRewrite (gs "/") = gs "/" ∧
    NormalizeSiteRewrite (gs "") = gs "" ∧
    NormalizePersonalizedRewrite (gs "/") = gs "/" ∧
    NormalizePersonalizedRewrite (gs "") = gs "" :=
  ⟨rfl, rfl, rfl, rfl, rfl, rfl, rfl, rfl⟩

/-- C8 counterexample: `GetSiteRewriteData` on the empty string returns
the empty string as the normalized path, not `/`, refuting the claim for
empty inputs. -/
theorem decode_degenerate_cex :
    GetSiteRewriteData (gs "") (gs "web") = ⟨gs "web", gs ""⟩ ∧
    (gs "" : GoStr) ≠ gs "/" := by
  refine ⟨by decide, by decide⟩

section CodecSanity

/-! Sanity checks mirroring `TestGetSiteRewrite`, `TestGetSiteRewriteData`,
`TestGetPersonalizedRewriteData` and `TestNormalizeSiteRewrite`. -/

example : GetSiteRewrite (gs "/home") (gs "mysite") = gs "/_site_mysite/home" := by decide
example : GetSiteRewrite (gs "home") (gs "mysite") = gs "/_site_mysite/home" := by decide
example :
    GetSiteRewriteData (gs "/_site_mysite/home/about") (gs "default") =
      ⟨gs "mysite", gs "/home/about"⟩ := by decide
example :
    GetSiteRewriteData (gs "/home/about") (gs "default") =
      ⟨gs "default", gs "/home/about"⟩ := by decide
example :
    GetSiteRewriteData (gs "/_site_site1/") (gs "default") =
      ⟨gs "site1", gs "/"⟩ := by decide
example : NormalizeSiteRewrite (gs "/_site_mysite/home") = gs "/home" := by decide
example :
    GetPersonalizedRewriteData (gs "/_variantId_abc123/home") =
      ⟨gs "abc123", gs "/home"⟩ := by decide
example : NormalizePersonalizedRewrite (gs "/_variantId_xyz789/products/item") =
    gs "/products/item" := by decide

end CodecSanity

/-! ## Middleware composer (C9) -/

/-- C9: `Chain` builds a right-to-left nested closure, so the head
middleware runs first and its next handler is the chain of the rest;
on instrumented middleware the log records exactly the ids up to and
including the first middleware that does not call next, and the
terminal handler runs if and only if every middleware calls next. -/
theorem chain_order_short_circuit :
    (∀ (κ ρ : Type) (mw : Middleware κ ρ) (rest : List (Middleware κ ρ))
        (ctx : κ) (next : HandlerFunc κ ρ),
        Chain (mw :: rest) ctx next = mw ctx (fun c => Chain rest c next)) ∧
    (∀ (specs : List (Nat × Bool)) (init : List Nat) (tid : Nat),
        Chain (specs.map (fun p => traceMw p.1 p.2)) init
            (fun log => log ++ [tid]) =
          init ++ firedIds specs ++
            (if specs.all (fun p => p.2) then [tid] else [])) := by
  constructor
  · intro κ ρ mw rest ctx next
    rfl
  · intro specs
    induction specs with
    | nil =>
      intro init tid
      simp [Chain, firedIds]
    | cons p rest ih =>
      intro init tid
      obtain ⟨i, b⟩ := p
      have h1 : Chain (((i, b) :: rest).map (fun p => traceMw p.1 p.2)) init
          (fun log => log ++ [tid]) =
          traceMw i b init
            (fun c => Chain (rest.map (fun p => traceMw p.1 p.2)) c
              (fun log => log ++ [tid])) := rfl
      rw [h1, traceMw]
      cases b with
      | false => simp [firedIds]
      | true =>
        simp only [if_pos]
        rw [ih (init ++ [i]) tid]
        simp only [firedIds, List.all_cons, List.append_assoc, Bool.true_and,
          List.cons_append, List.singleton_append, if_true, List.nil_append]

/-! ## Multisite middleware (C10) -/

/-- C10: with multisite enabled and a non-empty `site` query parameter,
`MultisiteMiddleware.Handle` stores the parameter verbatim in the
context bag and in the site cookie, for every configuration — in
particular also when the parameter matches no configured site and no
default site, because the `GetByName` error is discarded and the
cookie/hostname/default tiers are skipped once the name is non-empty. -/
theorem multisite_query_param_verbatim (cfg : MultisiteConfig)
    (req : MultisiteRequest) (he : cfg.enabled = true)
    (hs : req.siteParam ≠ []) :
    (multisiteHandle cfg req).siteKey = some req.siteParam ∧
    (multisiteHandle cfg req).cookieValue = some req.siteParam := by
  have hname : resolveSiteName cfg req = req.siteParam := by
    unfold resolveSiteName
    simp [hs]
  unfold multisiteHandle
  rw [he]
  simp [hname]

/-- C10 witness: `site=ghost` is stored verbatim although the
configuration has no site named `ghost` (empty site list, default site
`web`). -/
theorem multisite_query_param_verbatim_witness :
    (multisiteHandle
        ⟨[], ⟨gs "web", gs "example.com", gs "en", gs "", gs ""⟩, true, false⟩
        ⟨[], gs "example.com", gs "/home", gs "ghost", none⟩).siteKey =
      some (gs "ghost") ∧
    (multisiteHandle
        ⟨[], ⟨gs "web", gs "example.com", gs "en", gs "", gs ""⟩, true, false⟩
        ⟨[], gs "example.com", gs "/home", gs "ghost", none⟩).cookieValue =
      some (gs "ghost") :=
  multisite_query_param_verbatim _ _ rfl (by decide)

/-! ## Redirects middleware state (C6) -/

/-- C6 (amended): a failed fetch leaves the middleware cache unloaded
and the current request passes through without a redirect; the failure
is not persisted — a subsequent request re-attempts the fetch, and a
successful fetch caches the rules for the rest of the middleware
lifetime, after which the fetch environment is no longer consulted. -/
theorem redirects_load_behavior (rx : RxMatch) (st : RedirectsMState)
    (req : RedirectsRequestEnv) :
    (st.redirects = none → req.fetchResult = .error () →
      redirectsHandle rx st req = (⟨none⟩, .passThrough)) ∧
    (∀ rs, st.redirects = none → req.fetchResult = .ok rs →
      redirectsHandle rx st req = (⟨some rs⟩, applyRedirect rx req.path rs)) ∧
    (∀ rs, st.redirects = some rs →
      redirectsHandle rx st req = (st, applyRedirect rx req.path rs)) := by
  obtain ⟨r⟩ := st
  refine ⟨?_, ?_, ?_⟩
  · intro h1 h2
    subst h1
    simp [redirectsHandle, h2]
  · intro rs h1 h2
    subst h1
    simp [redirectsHandle, h2]
  · intro rs h1
    subst h1
    simp [redirectsHandle]

/-- C6 witness: a failing fetch on an unloaded instance passes through
and leaves the state unloaded. -/
theorem redirects_load_behavior_witness :
    redirectsHandle rxNever ⟨none⟩ ⟨gs "/old", .error ()⟩ =
      (⟨none⟩, .passThrough) :=
  (redirects_load_behavior rxNever ⟨none⟩ ⟨gs "/old", .error ()⟩).1 rfl rfl

/-- C6 counterexample: after a failed first fetch (request 1 passes
through), the second request re-fetches, succeeds, and a redirect is
applied — refuting "never applies a redirect on any subsequent request
handled by the same middleware instance". -/
theorem redirects_failure_not_sticky_cex :
    redirectsRun rxNever ⟨none⟩
        [⟨gs "/old", .error ()⟩, ⟨gs "/old", .ok [cexRedirectRule]⟩] =
      (⟨some [cexRedirectRule]⟩,
        [.passThrough, .redirected 301 (gs "/new")]) := by decide

/-! ## Redirect matching (C4) -/

theorem findExactPass_eq_find (norm : GoStr) (rules : List RedirectInfo) :
    findExactPass norm rules =
      rules.find? (fun r => !r.isRegex && r.pattern == norm) := by
  induction rules with
  | nil => rfl
  | cons r rest ih =>
    by_cases h : (!r.isRegex && r.pattern == norm) = true
    · rw [findExactPass, if_pos h]
      exact (List.find?_cons_of_pos rest h).symm
    · rw [findExactPass, if_neg h, ih]
      exact (List.find?_cons_of_neg rest h).symm

theorem findRegexPass_eq_find (rx : RxMatch) (norm : GoStr)
    (rules : List RedirectInfo) :
    findRegexPass rx norm rules =
      rules.find? (fun r => r.isRegex && (rx r.pattern norm == some true)) := by
  induction rules with
  | nil => rfl
  | cons r rest ih =>
    by_cases hreg : r.isRegex = true
    · rcases hm : rx r.pattern norm with _ | b
      · rw [findRegexPass, if_pos hreg, hm, ih]
        exact (List.find?_cons_of_neg rest (by simp [hreg, hm])).symm
      · cases b with
        | true =>
          rw [findRegexPass, if_pos hreg, hm]
          exact (List.find?_cons_of_pos rest (by simp [hreg, hm])).symm
        | false =>
          rw [findRegexPass, if_pos hreg, hm, ih]
          exact (List.find?_cons_of_neg rest (by simp [hreg, hm])).symm
    · rw [findRegexPass, if_neg hreg, ih]
      exact (List.find?_cons_of_neg rest (by simp [hreg])).symm

/-- C4: for every matcher, path and rule list, `GetRedirect` returns a
non-regex rule whose pattern equals the normalized path whenever one
exists, regardless of where matching regex rules appear; when no exact
rule matches it returns the first regex rule whose pattern matches; and
when neither exists it reports no redirect. -/
theorem getRedirect_exact_precedence (rx : RxMatch) (path : GoStr)
    (rules : List RedirectInfo) :
    ((∃ r ∈ rules, r.isRegex = false ∧
        r.pattern = normalizeRedirectPath path) →
      ∃ r₀, GetRedirect rx path rules = some r₀ ∧ r₀.isRegex = false ∧
        r₀.pattern = normalizeRedirectPath path) ∧
    ((∀ r ∈ rules,
        ¬(r.isRegex = false ∧ r.pattern = normalizeRedirectPath path)) →
      GetRedirect rx path rules =
        rules.find? (fun r => r.isRegex &&
          (rx r.pattern (normalizeRedirectPath path) == some true))) ∧
    ((∀ r ∈ rules,
        ¬(r.isRegex = false ∧ r.pattern = normalizeRedirectPath path)) →
     (∀ r ∈ rules,
        ¬(r.isRegex = true ∧
          rx r.pattern (normalizeRedirectPath path) = some true)) →
      GetRedirect rx path rules = none) := by
  have hExactNone :
      (∀ r ∈ rules,
        ¬(r.isRegex = false ∧ r.pattern = normalizeRedirectPath path)) →
      findExactPass (normalizeRedirectPath path) rules = none := by
    intro h
    rw [findExactPass_eq_find]
    rw [List.find?_eq_none]
    intro r hr
    have := h r hr
    simp only [Bool.and_eq_true, Bool.not_eq_eq_eq_not, Bool.not_true,
      beq_iff_eq]
    intro hc
    exact this ⟨hc.1, hc.2⟩
  refine ⟨?_, ?_, ?_⟩
  · rintro ⟨r, hr, hreg, hpat⟩
    have hsome : (rules.find? (fun t => !t.isRegex &&
        t.pattern == normalizeRedirectPath path)).isSome := by
      rw [List.find?_isSome]
      exact ⟨r, hr, by simp [hreg, hpat]⟩
    rcases ho : rules.find? (fun t => !t.isRegex &&
        t.pattern == normalizeRedirectPath path) with _ | r₀
    · rw [ho] at hsome
      simp at hsome
    · have hp := List.find?_some ho
      simp only [Bool.and_eq_true, Bool.not_eq_eq_eq_not, Bool.not_true,
        beq_iff_eq] at hp
      refine ⟨r₀, ?_, hp.1, hp.2⟩
      simp only [GetRedirect]
      rw [findExactPass_eq_find, ho]
  · intro h
    simp only [GetRedirect]
    rw [hExactNone h, findRegexPass_eq_find]
  · intro h1 h2
    simp only [GetRedirect]
    rw [hExactNone h1, findRegexPass_eq_find]
    rw [List.find?_eq_none]
    intro r hr
    have := h2 r hr
    simp only [Bool.and_eq_true, beq_iff_eq]
    intro hc
    exact this ⟨hc.1, hc.2⟩

/-- C4 witness: with a universally matching regex rule listed first and
an exact rule listed second, `GetRedirect` still returns the exact
rule. -/
theorem getRedirect_exact_precedence_witness :
    ∃ r₀, GetRedirect rxAlways (gs "/old")
        [⟨gs "^/o.*", gs "/r", gs "302", gs "", true⟩, cexRedirectRule] =
        some r₀ ∧
      r₀.isRegex = false ∧ r₀.pattern = normalizeRedirectPath (gs "/old") :=
  (getRedirect_exact_precedence rxAlways (gs "/old")
      [⟨gs "^/o.*", gs "/r", gs "302", gs "", true⟩, cexRedirectRule]).1
    ⟨cexRedirectRule, by decide, by decide, by decide⟩

/-! ## Locale middleware (C5) -/

theorem localeHandle_tier1 (cfg : LocaleConfig) (req : LocaleRequest)
    (h1 : extractLocaleFromPath req.path ≠ [])
    (h2 : isSupported cfg (extractLocaleFromPath req.path) = true) :
    localeHandle cfg req =
      ⟨extractLocaleFromPath req.path, some (extractLocaleFromPath req.path)⟩ := by
  simp only [localeHandle]
  rw [if_pos ⟨h1, h2⟩]

theorem localeHandle_tier2 (cfg : LocaleConfig) (req : LocaleRequest)
    (h1 : ¬(extractLocaleFromPath req.path ≠ [] ∧
      isSupported cfg (extractLocaleFromPath req.path) = true))
    (h2 : localeQueryParam req ≠ [])
    (h3 : isSupported cfg (localeQueryParam req) = true) :
    localeHandle cfg req = ⟨localeQueryParam req, some (localeQueryParam req)⟩ := by
  simp only [localeHandle]
  rw [if_neg h1, if_pos ⟨h2, h3⟩]

theorem localeHandle_tier3 (cfg : LocaleConfig) (req : LocaleRequest) (v : GoStr)
    (h1 : ¬(extractLocaleFromPath req.path ≠ [] ∧
      isSupported cfg (extractLocaleFromPath req.path) = true))
    (h2 : ¬(localeQueryParam req ≠ [] ∧
      isSupported cfg (localeQueryParam req) = true))
    (h3 : req.cookie = some v) (h4 : isSupported cfg v = true) :
    localeHandle cfg req = ⟨v, none⟩ := by
  simp only [localeHandle]
  rw [if_neg h1, if_neg h2, h3]
  simp [h4]

theorem localeHandle_fall (cfg : LocaleConfig) (req : LocaleRequest)
    (h1 : ¬(extractLocaleFromPath req.path ≠ [] ∧
      isSupported cfg (extractLocaleFromPath req.path) = true))
    (h2 : ¬(localeQueryParam req ≠ [] ∧
      isSupported cfg (localeQueryParam req) = true))
    (h3 : req.cookie = none ∨
      ∃ v, req.cookie = some v ∧ isSupported cfg v = false) :
    localeHandle cfg req = localeFallthrough cfg req := by
  simp only [localeHandle]
  rw [if_neg h1, if_neg h2]
  rcases h3 with h | ⟨v, hv, hsup⟩
  · rw [h]
  · rw [hv]
    simp [hsup]

theorem localeFallthrough_nonempty (cfg : LocaleConfig) (req : LocaleRequest)
    (hd : cfg.defaultLanguage ≠ []) :
    (localeFallthrough cfg req).stored ≠ [] := by
  simp only [localeFallthrough]
  split
  · split
    · next h => exact h.1
    · exact hd
  · exact hd

theorem localeHandle_nonempty (cfg : LocaleConfig) (req : LocaleRequest)
    (hd : cfg.defaultLanguage ≠ [])
    (hc : ∀ v, req.cookie = some v → isSupported cfg v = true → v ≠ []) :
    (localeHandle cfg req).stored ≠ [] := by
  simp only [localeHandle]
  split
  · next h => exact h.1
  · split
    · next h => exact h.1
    · split
      · split
        · next hsup =>
          next v heq => exact hc v heq hsup
        · exact localeFallthrough_nonempty cfg req hd
      · exact localeFallthrough_nonempty cfg req hd

/-- C5 (amended): the locale stored by the Locale Middleware is decided
by the first applicable tier in the order path segment, `sc_lang` /
`locale` query parameter, locale cookie, Accept-Language (only when
`UseAcceptLanguage` is enabled), configured default; a supported
locale-shaped path segment wins over a query parameter even when both
are present; and the resolved locale is non-empty provided the default
language is non-empty and the cookie tier is never selected with an
empty cookie value (an empty supported cookie value is stored as is,
which is what the counterexample exhibits). -/
theorem locale_precedence (cfg : LocaleConfig) (req : LocaleRequest) :
    (extractLocaleFromPath req.path ≠ [] →
     isSupported cfg (extractLocaleFromPath req.path) = true →
      (localeHandle cfg req).stored = extractLocaleFromPath req.path) ∧
    (¬(extractLocaleFromPath req.path ≠ [] ∧
        isSupported cfg (extractLocaleFromPath req.path) = true) →
     localeQueryParam req ≠ [] →
     isSupported cfg (localeQueryParam req) = true →
      (localeHandle cfg req).stored = localeQueryParam req) ∧
    (∀ v, ¬(extractLocaleFromPath req.path ≠ [] ∧
        isSupported cfg (extractLocaleFromPath req.path) = true) →
     ¬(localeQueryParam req ≠ [] ∧
        isSupported cfg (localeQueryParam req) = true) →
     req.cookie = some v → isSupported cfg v = true →
      (localeHandle cfg req).stored = v) ∧
    (¬(extractLocaleFromPath req.path ≠ [] ∧
        isSupported cfg (extractLocaleFromPath req.path) = true) →
     ¬(localeQueryParam req ≠ [] ∧
        isSupported cfg (localeQueryParam req) = true) →
     (req.cookie = none ∨
        ∃ v, req.cookie = some v ∧ isSupported cfg v = false) →
     cfg.useAcceptLanguage = true → req.acceptLanguage ≠ [] →
     parseAcceptLanguage cfg req.acceptLanguage ≠ [] →
     isSupported cfg (parseAcceptLanguage cfg req.acceptLanguage) = true →
      (localeHandle cfg req).stored =
        parseAcceptLanguage cfg req.acceptLanguage) ∧
    (¬(extractLocaleFromPath req.path ≠ [] ∧
        isSupported cfg (extractLocaleFromPath req.path) = true) →
     ¬(localeQueryParam req ≠ [] ∧
        isSupported cfg (localeQueryParam req) = true) →
     (req.cookie = none ∨
        ∃ v, req.cookie = some v ∧ isSupported cfg v = false) →
     (cfg.useAcceptLanguage = false ∨ req.acceptLanguage = [] ∨
        ¬(parseAcceptLanguage cfg req.acceptLanguage ≠ [] ∧
          isSupported cfg (parseAcceptLanguage cfg req.acceptLanguage) = true)) →
      (localeHandle cfg req).stored = cfg.defaultLanguage) ∧
    (cfg.defaultLanguage ≠ [] →
     (∀ v, req.cookie = some v → isSupported cfg v = true → v ≠ []) →
      (localeHandle cfg req).stored ≠ []) := by
  refine ⟨?_, ?_, ?_, ?_, ?_, ?_⟩
  · intro h1 h2
    rw [localeHandle_tier1 cfg req h1 h2]
  · intro h1 h2 h3
    rw [localeHandle_tier2 cfg req h1 h2 h3]
  · intro v h1 h2 h3 h4
    rw [localeHandle_tier3 cfg req v h1 h2 h3 h4]
  · intro h1 h2 h3 h4 h5 h6 h7
    rw [localeHandle_fall cfg req h1 h2 h3]
    simp only [localeFallthrough]
    rw [if_pos ⟨h4, h5⟩, if_pos ⟨h6, h7⟩]
  · intro h1 h2 h3 h4
    rw [localeHandle_fall cfg req h1 h2 h3]
    simp only [localeFallthrough]
    rcases h4 with h | h | h
    · rw [if_neg (by simp [h])]
    · rw [if_neg (by simp [h])]
    · by_cases hua : cfg.useAcceptLanguage = true ∧ req.acceptLanguage ≠ []
      · rw [if_pos hua, if_neg h]
      · rw [if_neg hua]
  · intro hd hc
    exact localeHandle_nonempty cfg req hd hc

/-- C5 witness: with a supported `fr` path segment and a supported `en`
query parameter both present, the stored locale is the path segment. -/
theorem locale_precedence_witness :
    (localeHandle ⟨gs "en", [gs "fr", gs "en"], false⟩
        ⟨gs "/fr/products", gs "en", [], none, []⟩).stored =
      extractLocaleFromPath (gs "/fr/products") :=
  (locale_precedence ⟨gs "en", [gs "fr", gs "en"], false⟩
    ⟨gs "/fr/products", gs "en", [], none, []⟩).1 (by decide) (by decide)

/-- C5 counterexample: with an empty supported-language list (accept
everything, the constructor default) and a present locale cookie whose
value is the empty string, the cookie tier is the first applicable tier
and the middleware stores the empty string — the resolved locale is not
always non-empty. -/
theorem locale_nonempty_cex :
    (localeHandle ⟨gs "en", [], false⟩
        ⟨gs "/", [], [], some [], []⟩).stored = [] := by decide

/-! ## Editing security gate (C7) -/

theorem getHeader_append_of_not_mem (hs : List (GoStr × GoStr)) (k v : GoStr)
    (h : hs.any (fun p => p.1 == k) = false) :
    getHeader (hs ++ [(k, v)]) k = some v := by
  induction hs with
  | nil => simp [getHeader, List.find?]
  | cons a t ih =>
    simp only [List.any_cons, Bool.or_eq_false_iff] at h
    rw [List.cons_append]
    unfold getHeader
    rw [List.find?_cons_of_neg _ (by simp [h.1])]
    have ht := ih h.2
    unfold getHeader at ht
    exact ht

theorem getHeader_map_replace (hs : List (GoStr × GoStr)) (k v : GoStr)
    (h : hs.any (fun p => p.1 == k) = true) :
    getHeader (hs.map (fun p => if p.1 == k then (k, v) else p)) k =
      some v := by
  induction hs with
  | nil => simp at h
  | cons a t ih =>
    by_cases ha : (a.1 == k) = true
    · simp [getHeader, List.find?, ha]
    · have ha2 : (a.1 == k) = false := by simpa using ha
      simp only [List.any_cons, ha2, Bool.false_or] at h
      rw [List.map_cons, if_neg ha]
      unfold getHeader
      rw [List.find?_cons_of_neg _ (by simp [ha2])]
      have ht := ih h
      unfold getHeader at ht
      exact ht

theorem getHeader_setHeader (hs : List (GoStr × GoStr)) (k v : GoStr) :
    getHeader (setHeader hs k v) k = some v := by
  unfold setHeader
  by_cases h : hs.any (fun p => p.1 == k) = true
  · rw [if_pos h]
    exact getHeader_map_replace hs k v h
  · rw [if_neg h]
    exact getHeader_append_of_not_mem hs k v (Bool.eq_false_iff.mpr h)

theorem getHeader_setIframeHeaders (hs : List (GoStr × GoStr))
    (allowedOrigins : List GoStr) :
    getHeader (setIframeHeaders hs allowedOrigins)
        (gs "Content-Security-Policy") =
      some (cspDirective allowedOrigins) := by
  unfold setIframeHeaders cspDirective
  by_cases he : allowedOrigins.isEmpty = true
  · rw [if_pos he, if_pos (by rw [he, Bool.true_or])]
    exact getHeader_setHeader hs _ _
  · have he2 : allowedOrigins.isEmpty = false := by simpa using he
    rw [if_neg he]
    by_cases hw : allowedOrigins.contains (gs "*") = true
    · rw [if_pos hw, if_pos (by rw [hw, Bool.or_true])]
      exact getHeader_setHeader hs _ _
    · have hw2 : allowedOrigins.contains (gs "*") = false := by simpa using hw
      rw [if_neg hw, if_neg (by rw [he2, hw2]; simp)]
      exact getHeader_setHeader hs _ _

/-- C7 (amended): for every non-OPTIONS request that passes secret
validation (or for which validation is skipped), the response carries a
`Content-Security-Policy` header whose value is a function of the
allowed-origins list alone — independent of the request origin and of
whether CORS headers were set — and the request proceeds to the next
handler.  When secret validation fails (missing or invalid secret) the
middleware returns 401 before setting any headers, so the CSP header is
not present in that case (see the counterexample). -/
theorem editing_csp_independent (cfg : EditingSecurityConfig)
    (req : EditRequest) (hm : (req.method == gs "OPTIONS") = false)
    (hpass : cfg.skipSecretValidation = true ∨
      (req.secretParam ≠ [] ∧ req.secretParam = cfg.secret)) :
    getHeader (editingSecurityHandle cfg req).headers
        (gs "Content-Security-Policy") =
      some (cspDirective cfg.allowedOrigins) ∧
    (editingSecurityHandle cfg req).nextCalled = true := by
  have hbody : editingSecurityHandle cfg req =
      { status := 0
        headers :=
          setIframeHeaders (setCORSHeaders [] req.origin cfg.allowedOrigins)
            cfg.allowedOrigins
        body := gs ""
        nextCalled := true } := by
    unfold editingSecurityHandle
    rw [if_neg (by simp [hm])]
    rcases hpass with h | ⟨hne, heq⟩
    · rw [if_neg (by simp [h]), if_neg (by simp [h])]
    · rw [if_neg (by intro hcontra; exact hne hcontra.2),
        if_neg (by intro hcontra; exact hcontra.2 heq)]
  rw [hbody]
  exact ⟨getHeader_setIframeHeaders _ _, rfl⟩

/-- C7 witness: a GET with the correct secret and an empty allow-list
receives `frame-ancestors *` and proceeds. -/
theorem editing_csp_independent_witness :
    getHeader (editingSecurityHandle ⟨gs "s", [], false⟩
          ⟨gs "GET", gs "", gs "s"⟩).headers
        (gs "Content-Security-Policy") = some (cspDirective []) ∧
    (editingSecurityHandle ⟨gs "s", [], false⟩
        ⟨gs "GET", gs "", gs "s"⟩).nextCalled = true :=
  editing_csp_independent ⟨gs "s", [], false⟩ ⟨gs "GET", gs "", gs "s"⟩
    (by decide) (Or.inr ⟨by decide, rfl⟩)

/-- C7 counterexample: a non-OPTIONS request with the secret missing is
rejected with 401 and carries no `Content-Security-Policy` header at
all, so the header is not present regardless of the secret-validation
outcome. -/
theorem editing_csp_cex :
    getHeader (editingSecurityHandle ⟨gs "s", [gs "https://a.com"], false⟩
          ⟨gs "GET", gs "https://a.com", gs ""⟩).headers
        (gs "Content-Security-Policy") = none ∧
    (editingSecurityHandle ⟨gs "s", [gs "https://a.com"], false⟩
        ⟨gs "GET", gs "https://a.com", gs ""⟩).status = 401 := by decide

/-! ## Transport retry loop (C2, C3) -/

theorem attCount_waitEvents (delay attempt : Nat) :
    attCount (waitEvents delay attempt) = 0 := by
  unfold waitEvents attCount
  split <;> simp

theorem attCount_append (a b : List ReqEvent) :
    attCount (a ++ b) = attCount a + attCount b :=
  List.countP_append _ _ _

theorem wait_mem_waitEvents (delay attempt k d : Nat)
    (h : ReqEvent.wait k d ∈ waitEvents delay attempt) :
    d = 2 ^ (k - 1) * delay ∧ 1 ≤ k := by
  unfold waitEvents at h
  rcases Nat.lt_or_ge 0 attempt with hpos | hz
  · rw [if_pos hpos] at h
    simp only [List.mem_singleton, ReqEvent.wait.injEq] at h
    obtain ⟨hk, hd⟩ := h
    subst hk
    exact ⟨hd, hpos⟩
  · rw [if_neg (by omega)] at h
    simp at h

theorem cancel_not_mem_waitEvents (delay attempt k : Nat) :
    ReqEvent.cancelWait k ∉ waitEvents delay attempt := by
  unfold waitEvents
  split <;> simp

theorem att_not_mem_waitEvents (delay attempt k : Nat) :
    ReqEvent.att k ∉ waitEvents delay attempt := by
  unfold waitEvents
  split <;> simp

theorem wait_mem_evIdx (delay attempt : Nat) (ev : ReqEvent)
    (h : ev ∈ waitEvents delay attempt) : evIdx ev = attempt := by
  unfold waitEvents at h
  rcases Nat.lt_or_ge 0 attempt with hpos | hz
  · rw [if_pos hpos] at h
    simp only [List.mem_singleton] at h
    subst h
    rfl
  · rw [if_neg (by omega)] at h
    simp at h

theorem attCount_att (k : Nat) : attCount [ReqEvent.att k] = 1 := by
  simp [attCount]

theorem attCount_cancel (k : Nat) : attCount [ReqEvent.cancelWait k] = 0 := by
  simp [attCount]

theorem requestGo_attCount (env : RequestEnv) (delay : Nat) :
    ∀ left attempt, attCount (requestGo env delay attempt left).2 ≤ left + 1 := by
  intro left
  induction left with
  | zero =>
    intro attempt
    by_cases hcancel : 0 < attempt ∧ env.ctxDoneDuringWait attempt = true
    · simp only [requestGo, if_pos hcancel]
      rw [attCount_cancel]
      omega
    · simp only [requestGo, if_neg hcancel]
      rcases hres : env.attemptResult attempt with _ | e <;>
        simp [attCount_append, attCount_waitEvents, attCount_att]
  | succ l ih =>
    intro attempt
    by_cases hcancel : 0 < attempt ∧ env.ctxDoneDuringWait attempt = true
    · simp only [requestGo, if_pos hcancel]
      rw [attCount_cancel]
      omega
    · simp only [requestGo, if_neg hcancel]
      rcases hres : env.attemptResult attempt with _ | e
      · rw [attCount_append, attCount_waitEvents, attCount_att]
        omega
      · by_cases hdone : env.ctxDoneAfterAttempt attempt = true
        · simp only [if_pos hdone]
          rw [attCount_append, attCount_waitEvents, attCount_att]
          omega
        · simp only [if_neg hdone]
          by_cases hval : e = GqlErrKind.validation
          · simp only [if_pos hval]
            rw [attCount_append, attCount_waitEvents, attCount_att]
            omega
          · simp only [if_neg hval]
            have hih := ih (attempt + 1)
            rw [attCount_append, attCount_append, attCount_waitEvents,
              attCount_att]
            omega

theorem requestGo_head (env : RequestEnv) (delay left : Nat) :
    (requestGo env delay 0 left).2.head? = some (.att 0) := by
  have hnc : ¬(0 < 0 ∧ env.ctxDoneDuringWait 0 = true) := by simp
  have hw : waitEvents delay 0 = [] := by simp [waitEvents]
  cases left with
  | zero =>
    simp only [requestGo, if_neg hnc, hw]
    rcases hres : env.attemptResult 0 with _ | e <;> simp
  | succ l =>
    simp only [requestGo, if_neg hnc, hw]
    rcases hres : env.attemptResult 0 with _ | e
    · simp
    · by_cases hdone : env.ctxDoneAfterAttempt 0 = true
      · simp [hdone]
      · by_cases hval : e = GqlErrKind.validation
        · simp [hdone, hval]
        · simp [hdone, hval]

theorem requestGo_wait_mem (env : RequestEnv) (delay : Nat) :
    ∀ left attempt k d,
      ReqEvent.wait k d ∈ (requestGo env delay attempt left).2 →
      d = 2 ^ (k - 1) * delay ∧ 1 ≤ k := by
  intro left
  induction left with
  | zero =>
    intro attempt k d h
    simp only [requestGo] at h
    split at h
    · simp at h
    · split at h
      · rcases List.mem_append.mp h with h1 | h1
        · exact wait_mem_waitEvents delay attempt k d h1
        · simp at h1
      · rcases List.mem_append.mp h with h1 | h1
        · exact wait_mem_waitEvents delay attempt k d h1
        · simp at h1
  | succ l ih =>
    intro attempt k d h
    simp only [requestGo] at h
    split at h
    · simp at h
    · split at h
      · rcases List.mem_append.mp h with h1 | h1
        · exact wait_mem_waitEvents delay attempt k d h1
        · simp at h1
      · split at h
        · rcases List.mem_append.mp h with h1 | h1
          · exact wait_mem_waitEvents delay attempt k d h1
          · simp at h1
        · split at h
          · rcases List.mem_append.mp h with h1 | h1
            · exact wait_mem_waitEvents delay attempt k d h1
            · simp at h1
          · rcases List.mem_append.mp h with h1 | h1
            · rcases List.mem_append.mp h1 with h2 | h2
              · exact wait_mem_waitEvents delay attempt k d h2
              · simp at h2
            · exact ih (attempt + 1) k d h1

theorem requestGo_evIdx (env : RequestEnv) (delay : Nat) :
    ∀ left attempt ev, ev ∈ (requestGo env delay attempt left).2 →
      attempt ≤ evIdx ev := by
  intro left
  induction left with
  | zero =>
    intro attempt ev h
    simp only [requestGo] at h
    split at h
    · simp only [List.mem_singleton] at h
      subst h
      exact Nat.le_refl _
    · split at h <;>
        · rcases List.mem_append.mp h with h1 | h1
          · exact Nat.le_of_eq (wait_mem_evIdx delay attempt ev h1).symm
          · simp only [List.mem_singleton] at h1
            subst h1
            exact Nat.le_refl _
  | succ l ih =>
    intro attempt ev h
    simp only [requestGo] at h
    split at h
    · simp only [List.mem_singleton] at h
      subst h
      exact Nat.le_refl _
    · split at h
      · rcases List.mem_append.mp h with h1 | h1
        · exact Nat.le_of_eq (wait_mem_evIdx delay attempt ev h1).symm
        · simp only [List.mem_singleton] at h1
          subst h1
          exact Nat.le_refl _
      · split at h
        · rcases List.mem_append.mp h with h1 | h1
          · exact Nat.le_of_eq (wait_mem_evIdx delay attempt ev h1).symm
          · simp only [List.mem_singleton] at h1
            subst h1
            exact Nat.le_refl _
        · split at h
          · rcases List.mem_append.mp h with h1 | h1
            · exact Nat.le_of_eq (wait_mem_evIdx delay attempt ev h1).symm
            · simp only [List.mem_singleton] at h1
              subst h1
              exact Nat.le_refl _
          · rcases List.mem_append.mp h with h1 | h1
            · rcases List.mem_append.mp h1 with h2 | h2
              · exact Nat.le_of_eq (wait_mem_evIdx delay attempt ev h2).symm
              · simp only [List.mem_singleton] at h2
                subst h2
                exact Nat.le_refl _
            · exact Nat.le_trans (Nat.le_succ attempt) (ih (attempt + 1) ev h1)

theorem requestGo_cancel_mem (env : RequestEnv) (delay : Nat) :
    ∀ left attempt k,
      ReqEvent.cancelWait k ∈ (requestGo env delay attempt left).2 →
      (requestGo env delay attempt left).1 = .ctxCanceled k ∧
      ReqEvent.att k ∉ (requestGo env delay attempt left).2 := by
  intro left
  induction left with
  | zero =>
    intro attempt k
    simp only [requestGo]
    split
    · intro h
      simp only [List.mem_singleton, ReqEvent.cancelWait.injEq] at h
      subst h
      exact ⟨rfl, by simp⟩
    · split <;>
        · intro h
          exfalso
          rcases List.mem_append.mp h with h1 | h1
          · exact cancel_not_mem_waitEvents delay attempt k h1
          · simp at h1
  | succ l ih =>
    intro attempt k
    simp only [requestGo]
    split
    · intro h
      simp only [List.mem_singleton, ReqEvent.cancelWait.injEq] at h
      subst h
      exact ⟨rfl, by simp⟩
    · split
      · intro h
        exfalso
        rcases List.mem_append.mp h with h1 | h1
        · exact cancel_not_mem_waitEvents delay attempt k h1
        · simp at h1
      · split
        · intro h
          exfalso
          rcases List.mem_append.mp h with h1 | h1
          · exact cancel_not_mem_waitEvents delay attempt k h1
          · simp at h1
        · split
          · intro h
            exfalso
            rcases List.mem_append.mp h with h1 | h1
            · exact cancel_not_mem_waitEvents delay attempt k h1
            · simp at h1
          · intro h
            rcases List.mem_append.mp h with h1 | h1
            · exfalso
              rcases List.mem_append.mp h1 with h2 | h2
              · exact cancel_not_mem_waitEvents delay attempt k h2
              · simp at h2
            · obtain ⟨ho, hnm⟩ := ih (attempt + 1) k h1
              have hk : attempt + 1 ≤ k := by
                have hidx := requestGo_evIdx env delay l (attempt + 1)
                  (ReqEvent.cancelWait k) h1
                simpa [evIdx] using hidx
              refine ⟨ho, ?_⟩
              intro hma
              rcases List.mem_append.mp hma with h3 | h3
              · rcases List.mem_append.mp h3 with h4 | h4
                · exact att_not_mem_waitEvents delay attempt k h4
                · simp only [List.mem_singleton, ReqEvent.att.injEq] at h4
                  omega
              · exact hnm h3

theorem requestGo_canceled_cause (env : RequestEnv) (delay : Nat) :
    ∀ left attempt a,
      (requestGo env delay attempt left).1 = .ctxCanceled a →
      env.ctxDoneDuringWait a = true := by
  intro left
  induction left with
  | zero =>
    intro attempt a
    simp only [requestGo]
    split
    · next hc =>
      intro h
      simp only [ReqOutcome.ctxCanceled.injEq] at h
      subst h
      exact hc.2
    · split <;> · intro h; simp at h
  | succ l ih =>
    intro attempt a
    simp only [requestGo]
    split
    · next hc =>
      intro h
      simp only [ReqOutcome.ctxCanceled.injEq] at h
      subst h
      exact hc.2
    · split
      · intro h
        simp at h
      · split
        · intro h
          simp at h
        · split
          · intro h
            simp at h
          · intro h
            exact ih (attempt + 1) a h

theorem requestGo_wrapped_cause (env : RequestEnv) (delay : Nat) :
    ∀ left attempt a e,
      (requestGo env delay attempt left).1 = .wrapped a e →
      a < attempt + left + 1 →
      env.ctxDoneAfterAttempt (a - 1) = true ∨ e = .validation := by
  intro left
  induction left with
  | zero =>
    intro attempt a e
    simp only [requestGo]
    split
    · intro h
      simp at h
    · split
      · intro h
        simp at h
      · intro h hb
        simp only [ReqOutcome.wrapped.injEq] at h
        omega
  | succ l ih =>
    intro attempt a e
    simp only [requestGo]
    split
    · intro h
      simp at h
    · split
      · intro h
        simp at h
      · split
        · next hdone =>
          intro h hb
          simp only [ReqOutcome.wrapped.injEq] at h
          obtain ⟨ha, he⟩ := h
          left
          have : a - 1 = attempt := by omega
          rw [this]
          exact hdone
        · split
          · next hval =>
            intro h hb
            simp only [ReqOutcome.wrapped.injEq] at h
            obtain ⟨ha, he⟩ := h
            right
            rw [← he]
            exact hval
          · intro h hb
            exact ih (attempt + 1) a e h (by omega)

theorem requestGo_exhaust (env : RequestEnv) (delay : Nat) :
    ∀ left attempt,
      (∀ k, attempt ≤ k → k ≤ attempt + left →
        env.ctxDoneDuringWait k = false) →
      (∀ k, attempt ≤ k → k ≤ attempt + left →
        env.ctxDoneAfterAttempt k = false) →
      (∀ k, attempt ≤ k → k ≤ attempt + left → env.attemptResult k ≠ none) →
      (∀ k, attempt ≤ k → k ≤ attempt + left →
        env.attemptResult k ≠ some .validation) →
      ∃ e, (requestGo env delay attempt left).1 =
          .wrapped (attempt + left + 1) e ∧
        env.attemptResult (attempt + left) = some e := by
  intro left
  induction left with
  | zero =>
    intro attempt h1 h2 h3 h4
    have hcancel : ¬(0 < attempt ∧ env.ctxDoneDuringWait attempt = true) := by
      intro hc
      rw [h1 attempt (Nat.le_refl _) (by omega)] at hc
      exact absurd hc.2 (by simp)
    simp only [requestGo]
    rw [if_neg hcancel]
    cases hres : env.attemptResult attempt with
    | none => exact absurd hres (h3 attempt (Nat.le_refl _) (by omega))
    | some e => exact ⟨e, rfl, by simpa using hres⟩
  | succ l ih =>
    intro attempt h1 h2 h3 h4
    have hcancel : ¬(0 < attempt ∧ env.ctxDoneDuringWait attempt = true) := by
      intro hc
      rw [h1 attempt (Nat.le_refl _) (by omega)] at hc
      exact absurd hc.2 (by simp)
    simp only [requestGo]
    rw [if_neg hcancel]
    rcases hres : env.attemptResult attempt with _ | e
    · exact absurd hres (h3 attempt (Nat.le_refl _) (by omega))
    · simp only [hres]
      rw [if_neg (by rw [h2 attempt (Nat.le_refl _) (by omega)]; simp)]
      have hval : ¬e = GqlErrKind.validation := by
        intro hv
        exact h4 attempt (Nat.le_refl _) (by omega) (by rw [hres, hv])
      rw [if_neg hval]
      obtain ⟨e2, ho, hr⟩ := ih (attempt + 1)
        (fun k hk1 hk2 => h1 k (by omega) (by omega))
        (fun k hk1 hk2 => h2 k (by omega) (by omega))
        (fun k hk1 hk2 => h3 k (by omega) (by omega))
        (fun k hk1 hk2 => h4 k (by omega) (by omega))
      have harr : attempt + 1 + l + 1 = attempt + (l + 1) + 1 := by omega
      have harr2 : attempt + 1 + l = attempt + (l + 1) := by omega
      rw [harr] at ho
      rw [harr2] at hr
      exact ⟨e2, ho, hr⟩

theorem requestGo_stop_validation (env : RequestEnv) (delay : Nat) :
    ∀ left attempt j, attempt ≤ j → j ≤ attempt + left →
      (∀ k, attempt ≤ k → k < j →
        env.attemptResult k ≠ none ∧
        env.attemptResult k ≠ some GqlErrKind.validation ∧
        env.ctxDoneAfterAttempt k = false) →
      (∀ k, attempt ≤ k → k ≤ j → env.ctxDoneDuringWait k = false) →
      env.attemptResult j = some GqlErrKind.validation →
      (requestGo env delay attempt left).1 = .wrapped (j + 1) .validation := by
  intro left
  induction left with
  | zero =>
    intro attempt j hle hub hpre hnw hj
    have hja : j = attempt := by omega
    subst hja
    have hcancel : ¬(0 < j ∧ env.ctxDoneDuringWait j = true) := by
      intro hc
      rw [hnw j (Nat.le_refl _) (Nat.le_refl _)] at hc
      exact absurd hc.2 (by simp)
    simp only [requestGo]
    rw [if_neg hcancel]
    simp only [hj]
  | succ l ih =>
    intro attempt j hle hub hpre hnw hj
    have hcancel : ¬(0 < attempt ∧ env.ctxDoneDuringWait attempt = true) := by
      intro hc
      rw [hnw attempt (Nat.le_refl _) hle] at hc
      exact absurd hc.2 (by simp)
    simp only [requestGo]
    rw [if_neg hcancel]
    by_cases hja : j = attempt
    · subst hja
      simp only [hj]
      by_cases hdone : env.ctxDoneAfterAttempt j = true
      · rw [if_pos hdone]
      · rw [if_neg hdone, if_pos trivial]
    · have hlt : attempt < j := by omega
      obtain ⟨hr1, hr2, hr3⟩ := hpre attempt (Nat.le_refl _) hlt
      rcases hres : env.attemptResult attempt with _ | e
      · exact absurd hres hr1
      · simp only [hres]
        rw [if_neg (by rw [hr3]; simp),
          if_neg (by intro hv; exact hr2 (by rw [hres, hv]))]
        exact ih (attempt + 1) j (by omega) (by omega)
          (fun k hk1 hk2 => hpre k (by omega) hk2)
          (fun k hk1 hk2 => hnw k (by omega) hk2) hj

theorem requestGo_stop_ctxAfter (env : RequestEnv) (delay : Nat) :
    ∀ left attempt j e, attempt ≤ j → j ≤ attempt + left →
      (∀ k, attempt ≤ k → k < j →
        env.attemptResult k ≠ none ∧
        env.attemptResult k ≠ some GqlErrKind.validation ∧
        env.ctxDoneAfterAttempt k = false) →
      (∀ k, attempt ≤ k → k ≤ j → env.ctxDoneDuringWait k = false) →
      env.attemptResult j = some e →
      env.ctxDoneAfterAttempt j = true →
      (requestGo env delay attempt left).1 = .wrapped (j + 1) e := by
  intro left
  induction left with
  | zero =>
    intro attempt j e hle hub hpre hnw hj hdone
    have hja : j = attempt := by omega
    subst hja
    have hcancel : ¬(0 < j ∧ env.ctxDoneDuringWait j = true) := by
      intro hc
      rw [hnw j (Nat.le_refl _) (Nat.le_refl _)] at hc
      exact absurd hc.2 (by simp)
    simp only [requestGo]
    rw [if_neg hcancel]
    simp only [hj]
  | succ l ih =>
    intro attempt j e hle hub hpre hnw hj hdone
    have hcancel : ¬(0 < attempt ∧ env.ctxDoneDuringWait attempt = true) := by
      intro hc
      rw [hnw attempt (Nat.le_refl _) hle] at hc
      exact absurd hc.2 (by simp)
    simp only [requestGo]
    rw [if_neg hcancel]
    by_cases hja : j = attempt
    · subst hja
      simp only [hj]
      rw [if_pos hdone]
    · have hlt : attempt < j := by omega
      obtain ⟨hr1, hr2, hr3⟩ := hpre attempt (Nat.le_refl _) hlt
      rcases hres : env.attemptResult attempt with _ | e0
      · exact absurd hres hr1
      · simp only [hres]
        rw [if_neg (by rw [hr3]; simp),
          if_neg (by intro hv; exact hr2 (by rw [hres, hv]))]
        exact ih (attempt + 1) j e (by omega) (by omega)
          (fun k hk1 hk2 => hpre k (by omega) hk2)
          (fun k hk1 hk2 => hnw k (by omega) hk2) hj hdone

theorem requestGo_stop_cancelWait (env : RequestEnv) (delay : Nat) :
    ∀ left attempt j, attempt < j → j ≤ attempt + left →
      (∀ k, attempt ≤ k → k < j →
        env.attemptResult k ≠ none ∧
        env.attemptResult k ≠ some GqlErrKind.validation ∧
        env.ctxDoneAfterAttempt k = false) →
      (∀ k, attempt ≤ k → k < j → env.ctxDoneDuringWait k = false) →
      env.ctxDoneDuringWait j = true →
      (requestGo env delay attempt left).1 = .ctxCanceled j := by
  intro left
  induction left with
  | zero =>
    intro attempt j hlt hub hpre hnw hw
    exact absurd hub (by omega)
  | succ l ih =>
    intro attempt j hlt hub hpre hnw hw
    have hcancel : ¬(0 < attempt ∧ env.ctxDoneDuringWait attempt = true) := by
      intro hc
      rw [hnw attempt (Nat.le_refl _) hlt] at hc
      exact absurd hc.2 (by simp)
    simp only [requestGo]
    rw [if_neg hcancel]
    obtain ⟨hr1, hr2, hr3⟩ := hpre attempt (Nat.le_refl _) hlt
    rcases hres : env.attemptResult attempt with _ | e
    · exact absurd hres hr1
    · simp only [hres]
      rw [if_neg (by rw [hr3]; simp),
        if_neg (by intro hv; exact hr2 (by rw [hres, hv]))]
      by_cases hja : j = attempt + 1
      · subst hja
        cases l with
        | zero =>
          simp only [requestGo]
          rw [if_pos ⟨by omega, hw⟩]
        | succ m =>
          simp only [requestGo]
          rw [if_pos ⟨by omega, hw⟩]
      · exact ih (attempt + 1) j (by omega) (by omega)
          (fun k hk1 hk2 => hpre k (by omega) hk2)
          (fun k hk1 hk2 => hnw k (by omega) hk2) hw

/-- C2: the retry loop of `Request` stops early, with an error, exactly
for a done context or a client-side validation error.  Only-if: any
early-stopped wrapped error had a non-nil `ctx.Err()` after its last
attempt or was a validation error, and a bare context error is only
returned when the backoff select observed `ctx.Done()`.  If: whenever
the context never cancels and every attempt fails with a non-validation
error (HTTP transport failure, non-2xx status, GraphQL envelope error),
the loop performs all `1 + Retries` attempts and wraps the last error;
and conversely a validation error at attempt `j`, a non-nil `ctx.Err()`
after attempt `j`, or `ctx.Done()` during the wait before attempt `j`
each end the loop right there — with `j + 1` (resp. `j`) attempts, even
when `j < Retries`, bypassing every remaining retry. -/
theorem transport_retry_discrimination (env : RequestEnv)
    (retries delay : Nat) :
    (∀ a e, (requestLoop env retries delay).1 = .wrapped a e →
      a < retries + 1 →
      env.ctxDoneAfterAttempt (a - 1) = true ∨ e = .validation) ∧
    (∀ a, (requestLoop env retries delay).1 = .ctxCanceled a →
      env.ctxDoneDuringWait a = true) ∧
    ((∀ k, k ≤ retries → env.ctxDoneDuringWait k = false) →
     (∀ k, k ≤ retries → env.ctxDoneAfterAttempt k = false) →
     (∀ k, k ≤ retries → env.attemptResult k ≠ none) →
     (∀ k, k ≤ retries → env.attemptResult k ≠ some .validation) →
     ∃ e, (requestLoop env retries delay).1 = .wrapped (retries + 1) e ∧
       env.attemptResult retries = some e) ∧
    (∀ j, j ≤ retries →
     (∀ k, k < j → env.attemptResult k ≠ none ∧
        env.attemptResult k ≠ some .validation ∧
        env.ctxDoneAfterAttempt k = false) →
     (∀ k, k ≤ j → env.ctxDoneDuringWait k = false) →
     env.attemptResult j = some .validation →
     (requestLoop env retries delay).1 = .wrapped (j + 1) .validation) ∧
    (∀ j e, j ≤ retries →
     (∀ k, k < j → env.attemptResult k ≠ none ∧
        env.attemptResult k ≠ some .validation ∧
        env.ctxDoneAfterAttempt k = false) →
     (∀ k, k ≤ j → env.ctxDoneDuringWait k = false) →
     env.attemptResult j = some e → env.ctxDoneAfterAttempt j = true →
     (requestLoop env retries delay).1 = .wrapped (j + 1) e) ∧
    (∀ j, 1 ≤ j → j ≤ retries →
     (∀ k, k < j → env.attemptResult k ≠ none ∧
        env.attemptResult k ≠ some .validation ∧
        env.ctxDoneAfterAttempt k = false) →
     (∀ k, k < j → env.ctxDoneDuringWait k = false) →
     env.ctxDoneDuringWait j = true →
     (requestLoop env retries delay).1 = .ctxCanceled j) := by
  refine ⟨?_, ?_, ?_, ?_, ?_, ?_⟩
  · intro a e h hb
    exact requestGo_wrapped_cause env delay retries 0 a e h (by omega)
  · intro a h
    exact requestGo_canceled_cause env delay retries 0 a h
  · intro h1 h2 h3 h4
    obtain ⟨e, ho, hr⟩ := requestGo_exhaust env delay retries 0
      (fun k _ hk2 => h1 k (by omega)) (fun k _ hk2 => h2 k (by omega))
      (fun k _ hk2 => h3 k (by omega)) (fun k _ hk2 => h4 k (by omega))
    exact ⟨e, by simpa using ho, by simpa using hr⟩
  · intro j hj hpre hnw hval
    exact requestGo_stop_validation env delay retries 0 j (by omega) (by omega)
      (fun k _ hk2 => hpre k hk2) (fun k _ hk2 => hnw k hk2) hval
  · intro j e hj hpre hnw hres hdone
    exact requestGo_stop_ctxAfter env delay retries 0 j e (by omega) (by omega)
      (fun k _ hk2 => hpre k hk2) (fun k _ hk2 => hnw k hk2) hres hdone
  · intro j hj1 hj2 hpre hnw hw
    exact requestGo_stop_cancelWait env delay retries 0 j (by omega) (by omega)
      (fun k _ hk2 => hpre k hk2) (fun k _ hk2 => hnw k hk2) hw

/-- C2 witness: every attempt answering HTTP 503 with `Retries = 3` and
a never-canceling context uses all four attempts and wraps the last 503
error, while a validation error on the very first attempt with
`Retries = 3` ends the loop after one attempt, bypassing all three
remaining retries. -/
theorem transport_retry_discrimination_witness :
    (∃ e, (requestLoop envAllFail 3 1).1 = .wrapped 4 e ∧
      envAllFail.attemptResult 3 = some e) ∧
    (requestLoop envValFail 3 1).1 = .wrapped 1 .validation :=
  ⟨(transport_retry_discrimination envAllFail 3 1).2.2.1
      (fun k _ => rfl) (fun k _ => rfl) (fun k _ => by simp [envAllFail])
      (fun k _ => by simp [envAllFail]),
    (transport_retry_discrimination envValFail 3 1).2.2.2.1 0 (by omega)
      (fun k hk => absurd hk (by omega)) (fun k _ => rfl) rfl⟩

/-- C3: `Request` performs at most `1 + Retries` attempts; the first
trace event is attempt 0 (no sleep precedes it); every completed
backoff wait before retry `k` lasts `2^(k-1) * RetryDelay` and occurs
only for `k ≥ 1`; and a wait aborted by cancellation makes the loop
return the context error at once, with retry `k` never issued. -/
theorem transport_backoff_schedule (env : RequestEnv) (retries delay : Nat) :
    attCount (requestLoop env retries delay).2 ≤ retries + 1 ∧
    (requestLoop env retries delay).2.head? = some (.att 0) ∧
    (∀ k d, ReqEvent.wait k d ∈ (requestLoop env retries delay).2 →
      d = 2 ^ (k - 1) * delay ∧ 1 ≤ k) ∧
    (∀ k, ReqEvent.cancelWait k ∈ (requestLoop env retries delay).2 →
      (requestLoop env retries delay).1 = .ctxCanceled k ∧
      ReqEvent.att k ∉ (requestLoop env retries delay).2) := by
  refine ⟨requestGo_attCount env delay retries 0,
    requestGo_head env delay retries, ?_, ?_⟩
  · intro k d h
    exact requestGo_wait_mem env delay retries 0 k d h
  · intro k h
    exact requestGo_cancel_mem env delay retries 0 k h

/-- C3 witness: in the all-failing environment with `RetryDelay = 5`,
the wait before retry 1 lasts `5 = 2^0 * 5`. -/
theorem transport_backoff_schedule_witness :
    (5 : Nat) = 2 ^ (1 - 1) * 5 ∧ 1 ≤ 1 :=
  (transport_backoff_schedule envAllFail 2 5).2.2.1 1 5 (by decide)
